import Mathlib

/-!
Verification of the DICOM importer service (`importer/importer.py`).

The development shallowly embeds the parts of the importer that the
specification talks about: the DICOM dataset mutation performed before
upload, study-folder discovery, outcome classification and folder moves in
`DicomProcessor.process_study_folder`, the Keycloak token cache
(`TokenManager.get_token`), the pending-folder map of `InboxHandler`
(`_handle_new_folder` / `check_pending_folders`), and the STOW-RS multipart
boundary construction of `_upload_stow_rs`.

External effects (HTTP responses, filesystem move failures, the wall clock)
are passed in explicitly as parameters, so every definition is executable.
-/

namespace DicomImporter

/-! ## DICOM datasets and file content

pydicom is an external library; its reader and writer are modelled as an
inverse pair over an abstract dataset type.  A dataset is an association
list of (tag, value) attributes; `dcmread` succeeds exactly on well-formed
DICOM content and `save_as` re-encodes a dataset. -/

/-- A DICOM attribute tag: the (group,element) pair as one number. -/
abbrev Tag := Nat

/-- Tag (0008,0080) InstitutionName. -/
def institutionNameTag : Tag := 0x00080080

/-- A DICOM dataset: an association list of (tag, value) attributes. -/
abbrev Dataset := List (Tag × String)

/-- Content of a file on disk: either a well-formed DICOM encoding of a
dataset, or arbitrary non-DICOM content. -/
inductive FileBytes where
  | dicomBytes (ds : Dataset) : FileBytes
  | otherBytes (payload : String) : FileBytes
deriving DecidableEq, Repr

/-- Model of `pydicom.dcmread`: succeeds exactly on well-formed DICOM content.
(The `stop_before_pixels=True` variant used for the discovery probe reads
less data but succeeds on the same inputs.) -/
def dcmread : FileBytes → Option Dataset
  | .dicomBytes ds => some ds
  | .otherBytes _ => none

/-- Model of `Dataset.save_as` into an in-memory buffer: re-encodes the dataset. -/
def save_as (ds : Dataset) : FileBytes := .dicomBytes ds

/-- Model of `ds.InstitutionName = v` in pydicom: replace the attribute where present,
append it otherwise. -/
def setTag (ds : Dataset) (t : Tag) (v : String) : Dataset :=
  if ds.any (fun p => p.1 == t) then
    ds.map (fun p => if p.1 == t then (t, v) else p)
  else ds ++ [(t, v)]

/-- Attribute lookup in a dataset. -/
def getTag (ds : Dataset) (t : Tag) : Option String :=
  (ds.find? (fun p => p.1 == t)).map (fun p => p.2)

/-! ## Paths and extensions -/

/-- Model of `str.lower()` (ASCII case folding, written over the character list so
that it evaluates by kernel reduction). -/
def lowerStr (s : String) : String := String.mk (s.data.map Char.toLower)

/-- Glob suffix match: whether the file name ends with the literal pattern,
as `Path.glob` matches `*.dcm` (case-sensitive). -/
def strEnds (s pat : String) : Bool := List.isSuffixOf pat.data s.data

/-- Model of `pathlib.PurePath.suffix`: the substring from the last dot of the final
segment, or `""` when the last dot is absent, leading, or trailing. -/
def pySuffix (name : String) : String :=
  let cs := name.toList
  match (List.range cs.length).reverse.find? (fun i => cs.getD i ' ' == '.') with
  | some i => if 0 < i ∧ i + 1 < cs.length then String.mk (cs.drop i) else ""
  | none => ""

/-- A file inside a study folder: its path segments relative to the study
folder, and its content. -/
structure SrcFile where
  relPath : List String
  content : FileBytes
deriving DecidableEq, Repr

/-- Model of `Path.name`: the final path segment. -/
def SrcFile.name (f : SrcFile) : String := f.relPath.getLastD ""

/-- Model of `str(dicom_file.relative_to(study_path))`. -/
def SrcFile.relString (f : SrcFile) : String := String.intercalate "/" f.relPath

/-! ## Discovery (`process_study_folder`, first phase)

The source first globs `**/*.dcm` and `**/*.DCM` (case-sensitive name-suffix
matches), then walks all files again and appends any file whose lowercased
extension is outside {.dcm, .json, .txt, .log} and which parses as DICOM
metadata, deduplicating against the files already collected. -/

/-- The extensions excluded from the metadata-probe loop. -/
def skippedSuffixes : List String := [".dcm", ".json", ".txt", ".log"]

/-- Condition of the probe loop: extension (lowercased) not in the skip
list, and a metadata-only DICOM parse succeeds. -/
def extraProbe (f : SrcFile) : Bool :=
  !(skippedSuffixes.contains (lowerStr (pySuffix f.name))) && (dcmread f.content).isSome

/-- One iteration of the probe loop, with its `not in dicom_files` check. -/
def discoverStep (acc : List SrcFile) (f : SrcFile) : List SrcFile :=
  if extraProbe f then (if f ∈ acc then acc else acc ++ [f]) else acc

/-- The discovery phase of `process_study_folder`. -/
def discoverFiles (folder : List SrcFile) : List SrcFile :=
  folder.foldl discoverStep
    (folder.filter (fun f => strEnds f.name ".dcm")
      ++ folder.filter (fun f => strEnds f.name ".DCM"))

/-! ## Study processing (`DicomProcessor`)

`process_study_folder` drives each discovered file through
`_process_single_file` (full parse, InstitutionName rewrite, re-serialize,
STOW-RS upload), classifies the study, and moves the folder.  Network and
filesystem effects are supplied through `ProcEnv`: `uploadResult` is the
outcome of `_upload_stow_rs` on a given body and filename (`none` = HTTP
200/202, `some msg` = the exception raised), and each `move*Result` field is
the outcome of the corresponding `shutil.move` (`none` = moved, `some msg` =
the exception raised).  `moveFailedResultA` is consumed by a
`_move_to_failed` call made inside the `try` block, `moveFailedResultB` by
the one inside the `except` handler. -/

/-- The status label recorded in `dicom_imports_total`. -/
inductive Outcome where
  | success : Outcome
  | partialImport : Outcome
  | failed : Outcome
  | error : Outcome
deriving DecidableEq, Repr

/-- The `.error.json` record written by `_move_to_failed`. -/
structure ErrorRecord where
  study_folder : String
  clinic_id : String
  reason : String
  errors : List (String × String)
deriving DecidableEq, Repr

/-- External outcomes for one run of `process_study_folder`. -/
structure ProcEnv where
  uploadResult : FileBytes → String → Option String
  moveProcessedResult : Option String
  moveFailedResultA : Option String
  moveFailedResultB : Option String

/-- Accumulator of the per-file loop: `success_count`, `error_count`, the
`errors` list of `(relative file, message)` pairs, and the byte streams
handed to `_upload_stow_rs` for the files counted as successes. -/
structure LoopAcc where
  succ : Nat
  errs : Nat
  errorList : List (String × String)
  uploads : List (SrcFile × FileBytes)
deriving DecidableEq, Repr

/-- Model of `_process_single_file` for one file, folded into the loop bookkeeping of
`process_study_folder`: a full `dcmread`, the `InstitutionName` rewrite, the
re-serialization, and the upload; any raised exception increments
`error_count` and is appended to `errors`. -/
def processOneStep (env : ProcEnv) (clinic : String) (acc : LoopAcc)
    (f : SrcFile) : LoopAcc :=
  match dcmread f.content with
  | none =>
      { acc with errs := acc.errs + 1,
                 errorList := acc.errorList ++ [(f.relString, "Invalid DICOM file")] }
  | some ds =>
      let bytes := save_as (setTag ds institutionNameTag clinic)
      match env.uploadResult bytes f.name with
      | some msg =>
          { acc with errs := acc.errs + 1,
                     errorList := acc.errorList ++ [(f.relString, msg)] }
      | none =>
          { acc with succ := acc.succ + 1, uploads := acc.uploads ++ [(f, bytes)] }

/-- The whole per-file loop of `process_study_folder`. -/
def runLoop (env : ProcEnv) (clinic : String) (files : List SrcFile) : LoopAcc :=
  files.foldl (processOneStep env clinic) ⟨0, 0, [], []⟩

/-- Observable result of one `process_study_folder` run.  `returned` is
`.ok b` for a normal `return b` and `.error msg` when an exception escapes
the function; `metric` is the `dicom_imports_total` label incremented;
`exceptionLogged` is the message captured by the `log.exception` call in the
`except` handler; `removedFromInbox` records whether a move of the study
folder out of the inbox succeeded. -/
structure ProcResult where
  returned : Except String Bool
  metric : Option Outcome
  movedToProcessed : Bool
  movedToFailed : Bool
  errorRecord : Option ErrorRecord
  exceptionLogged : Option String
  removedFromInbox : Bool
  uploads : List (SrcFile × FileBytes)
deriving Repr

/-- The `except Exception` handler of `process_study_folder`: logs the
exception, calls `_move_to_failed(study, clinic, str(e))` (whose own failure
escapes the function), increments the `error` label and returns `False`. -/
def runExceptHandler (env : ProcEnv) (study clinic msg : String)
    (uploads : List (SrcFile × FileBytes)) : ProcResult :=
  match env.moveFailedResultB with
  | none =>
      { returned := .ok false, metric := some .error,
        movedToProcessed := false, movedToFailed := true,
        errorRecord := some ⟨study, clinic, msg, []⟩,
        exceptionLogged := some msg, removedFromInbox := true,
        uploads := uploads }
  | some msg2 =>
      { returned := .error msg2, metric := none,
        movedToProcessed := false, movedToFailed := false,
        errorRecord := none,
        exceptionLogged := some msg, removedFromInbox := false,
        uploads := uploads }

/-- Model of `DicomProcessor.process_study_folder`: discovery, the per-file loop,
outcome classification, and the folder move, with exceptions raised by the
moves routed through the `except` handler exactly as in the source. -/
def process_study_folder (env : ProcEnv) (folder : List SrcFile)
    (study clinic : String) : ProcResult :=
  let files := discoverFiles folder
  if files = [] then
    match env.moveFailedResultA with
    | none =>
        { returned := .ok false, metric := some .failed,
          movedToProcessed := false, movedToFailed := true,
          errorRecord := some ⟨study, clinic, "No DICOM files found", []⟩,
          exceptionLogged := none, removedFromInbox := true, uploads := [] }
    | some msg => runExceptHandler env study clinic msg []
  else
    let acc := runLoop env clinic files
    if acc.errs = 0 then
      match env.moveProcessedResult with
      | none =>
          { returned := .ok true, metric := some .success,
            movedToProcessed := true, movedToFailed := false,
            errorRecord := none, exceptionLogged := none,
            removedFromInbox := true, uploads := acc.uploads }
      | some msg => runExceptHandler env study clinic msg acc.uploads
    else if 0 < acc.succ then
      match env.moveProcessedResult with
      | none =>
          { returned := .ok true, metric := some .partialImport,
            movedToProcessed := true, movedToFailed := false,
            errorRecord := none, exceptionLogged := none,
            removedFromInbox := true, uploads := acc.uploads }
      | some msg => runExceptHandler env study clinic msg acc.uploads
    else
      match env.moveFailedResultA with
      | none =>
          { returned := .ok false, metric := some .failed,
            movedToProcessed := false, movedToFailed := true,
            errorRecord := some ⟨study, clinic,
              "All " ++ toString acc.errs ++ " files failed", acc.errorList⟩,
            exceptionLogged := none, removedFromInbox := true,
            uploads := acc.uploads }
      | some msg => runExceptHandler env study clinic msg acc.uploads

/-! ## Token cache (`TokenManager`)

`get_token` consults the cached `(token, expiry)` pair and otherwise runs
`_refresh_token`.  The HTTP outcome is a parameter: `none` models any
exception (connection error, non-2xx via `raise_for_status`, malformed
JSON), `some r` a 2xx response with its JSON body. -/

/-- The mutable state of a `TokenManager`: `_token` and `_token_expires`. -/
structure TokenState where
  token : Option String
  expires : Int
deriving DecidableEq, Repr

/-- JSON body of a successful Keycloak response; `expires_in` is read with
`data.get('expires_in', 300)`. -/
structure KeycloakResponse where
  access_token : String
  expires_in : Option Int
deriving DecidableEq, Repr

/-- Result of a `get_token` call: the returned value, the state afterwards,
and whether a network request was made. -/
structure TokenResult where
  returned : Option String
  state : TokenState
  networkUsed : Bool
deriving DecidableEq, Repr

/-- Python truthiness of `self._token` (`None` and `""` are falsy). -/
def tokenTruthy : Option String → Bool
  | some t => !(t = "")
  | none => false

/-- Model of `TokenManager._refresh_token`. -/
def refresh_token (secret : String) (st : TokenState) (now : Int)
    (net : Option KeycloakResponse) : TokenResult :=
  if secret = "" then ⟨none, st, false⟩
  else
    match net with
    | none => ⟨none, st, true⟩
    | some r =>
        ⟨some r.access_token,
         ⟨some r.access_token, now + r.expires_in.getD 300⟩, true⟩

/-- Model of `TokenManager.get_token`: return the cached token when it is truthy and
`now < expires - 60`, otherwise refresh. -/
def get_token (secret : String) (st : TokenState) (now : Int)
    (net : Option KeycloakResponse) : TokenResult :=
  if tokenTruthy st.token ∧ now < st.expires - 60 then ⟨st.token, st, false⟩
  else refresh_token secret st now net

/-- Model of `TokenManager.__init__`: `_token = None`, `_token_expires = 0`. -/
def initialTokenState : TokenState := ⟨none, 0⟩

/-- States a `TokenManager` can be in after any sequence of `get_token`
calls from its initial state. -/
inductive TokenReachable (secret : String) : TokenState → Prop where
  | init : TokenReachable secret initialTokenState
  | step (st : TokenState) (now : Int) (net : Option KeycloakResponse) :
      TokenReachable secret st →
      TokenReachable secret (get_token secret st now net).state

/-! ## Inbox watcher (`InboxHandler`)

Paths are modelled as segment lists; the pending map is an ordered
association list, matching a Python dict. -/

abbrev PathSegs := List String

/-- Model of `Path.relative_to(root)`: the remaining segments when `root` is a
prefix, `none` for the `ValueError` case. -/
def relativeParts : PathSegs → PathSegs → Option PathSegs
  | [], p => some p
  | _ :: _, [] => none
  | r :: rs, s :: ss => if r = s then relativeParts rs ss else none

/-- Python dict assignment `d[k] = v`: overwrite in place, else append. -/
def dictSet (m : List (PathSegs × Int)) (k : PathSegs) (v : Int) :
    List (PathSegs × Int) :=
  if m.any (fun e => decide (e.1 = k)) then
    m.map (fun e => if e.1 = k then (k, v) else e)
  else m ++ [(k, v)]

/-- Python dict lookup `d.get(k)`. -/
def dictGet (m : List (PathSegs × Int)) (k : PathSegs) : Option Int :=
  (m.find? (fun e => decide (e.1 = k))).map (fun e => e.2)

/-- Model of `InboxHandler._handle_new_folder`: derive the study key
`{inbox}/{seg0}/{seg1}` and stamp it with the current time; ignore paths
outside the inbox or with fewer than two relative segments. -/
def handle_new_folder (inbox : PathSegs) (st : List (PathSegs × Int))
    (path : PathSegs) (now : Int) : List (PathSegs × Int) :=
  match relativeParts inbox path with
  | none => st
  | some parts =>
      match parts with
      | a :: b :: _ => dictSet st (inbox ++ [a, b]) now
      | _ => st

/-- Model of `InboxHandler.check_pending_folders`: remove every entry past the
cooldown, then submit each removed folder that still exists, paired with
the first segment of its inbox-relative path.  `fsExists` is the state of
the filesystem at submission time.  Returns (remaining map, submitted
jobs). -/
def check_pending_folders (inbox : PathSegs) (cooldown : Int)
    (fsExists : PathSegs → Bool) (now : Int) (st : List (PathSegs × Int)) :
    List (PathSegs × Int) × List (PathSegs × String) :=
  let expired := (st.filter (fun e => decide (cooldown ≤ now - e.2))).map (fun e => e.1)
  let remaining := st.filter (fun e => !(decide (cooldown ≤ now - e.2)))
  let submitted := expired.filterMap (fun key =>
    if fsExists key then
      match relativeParts inbox key with
      | some (c :: _) => some (key, c)
      | _ => none
    else none)
  (remaining, submitted)

/-- Iterated `_handle_new_folder` calls for the same path, at the
given sequence of event times. -/
def noteMany (inbox : PathSegs) (st : List (PathSegs × Int)) (path : PathSegs)
    (times : List Int) : List (PathSegs × Int) :=
  times.foldl (fun s t => handle_new_folder inbox s path t) st

/-! ## STOW-RS multipart boundary (`_upload_stow_rs`)

The source computes `boundary = hashlib.md5(str(time.time()).encode())
.hexdigest()`.  `hashlib.md5` is the standard MD5 digest, implemented here
in full over byte lists (RFC 1321). -/

/-- The word modulus of MD5, 2^32. -/
def m32 : Nat := 4294967296

/-- Bitwise complement of a 32-bit word. -/
def mnot (a : Nat) : Nat := (m32 - 1) - a % m32

/-- Left-rotate a 32-bit word by `n`. -/
def rotl (a n : Nat) : Nat :=
  ((a % m32) * 2 ^ n % m32 + (a % m32) / 2 ^ (32 - n)) % m32

/-- The MD5 per-round shift amounts. -/
def md5S : List Nat :=
  [7, 12, 17, 22, 7, 12, 17, 22, 7, 12, 17, 22, 7, 12, 17, 22,
   5, 9, 14, 20, 5, 9, 14, 20, 5, 9, 14, 20, 5, 9, 14, 20,
   4, 11, 16, 23, 4, 11, 16, 23, 4, 11, 16, 23, 4, 11, 16, 23,
   6, 10, 15, 21, 6, 10, 15, 21, 6, 10, 15, 21, 6, 10, 15, 21]

/-- The MD5 sine-derived constants. -/
def md5K : List Nat :=
  [0xd76aa478, 0xe8c7b756, 0x242070db, 0xc1bdceee,
   0xf57c0faf, 0x4787c62a, 0xa8304613, 0xfd469501,
   0x698098d8, 0x8b44f7af, 0xffff5bb1, 0x895cd7be,
   0x6b901122, 0xfd987193, 0xa679438e, 0x49b40821,
   0xf61e2562, 0xc040b340, 0x265e5a51, 0xe9b6c7aa,
   0xd62f105d, 0x02441453, 0xd8a1e681, 0xe7d3fbc8,
   0x21e1cde6, 0xc33707d6, 0xf4d50d87, 0x455a14ed,
   0xa9e3e905, 0xfcefa3f8, 0x676f02d9, 0x8d2a4c8a,
   0xfffa3942, 0x8771f681, 0x6d9d6122, 0xfde5380c,
   0xa4beea44, 0x4bdecfa9, 0xf6bb4b60, 0xbebfbc70,
   0x289b7ec6, 0xeaa127fa, 0xd4ef3085, 0x04881d05,
   0xd9d4d039, 0xe6db99e5, 0x1fa27cf8, 0xc4ac5665,
   0xf4292244, 0x432aff97, 0xab9423a7, 0xfc93a039,
   0x655b59c3, 0x8f0ccc92, 0xffeff47d, 0x85845dd1,
   0x6fa87e4f, 0xfe2ce6e0, 0xa3014314, 0x4e0811a1,
   0xf7537e82, 0xbd3af235, 0x2ad7d2bb, 0xeb86d391]

/-- The number `n` as `k` little-endian bytes. -/
def toLEBytes (n : Nat) : Nat → List Nat
  | 0 => []
  | k + 1 => n % 256 :: toLEBytes (n / 256) k

/-- MD5 padding: append 0x80, zero bytes to 56 mod 64, then the bit length
as 8 little-endian bytes. -/
def md5pad (msg : List Nat) : List Nat :=
  msg ++ [0x80] ++ List.replicate ((119 - msg.length % 64) % 64) 0
      ++ toLEBytes (msg.length * 8) 8

/-- Four little-endian bytes as one 32-bit word. -/
def le32 : List Nat → Nat
  | [a, b, c, d] => a + 256 * b + 65536 * c + 16777216 * d
  | _ => 0

/-- A 64-byte block as 16 little-endian words. -/
def chunkWords (block : List Nat) : List Nat :=
  (List.range 16).map (fun i => le32 ((block.drop (4 * i)).take 4))

/-- One MD5 round. -/
def md5round (M : List Nat) (st : Nat × Nat × Nat × Nat) (i : Nat) :
    Nat × Nat × Nat × Nat :=
  let (A, B, C, D) := st
  let Fg : Nat × Nat :=
    if i < 16 then ((B &&& C) ||| (mnot B &&& D), i)
    else if i < 32 then ((D &&& B) ||| (mnot D &&& C), (5 * i + 1) % 16)
    else if i < 48 then (B ^^^ C ^^^ D, (3 * i + 5) % 16)
    else (C ^^^ (B ||| mnot D), 7 * i % 16)
  let F2 := (Fg.1 + A + md5K.getD i 0 + M.getD Fg.2 0) % m32
  (D, (B + rotl F2 (md5S.getD i 0)) % m32, B, C)

/-- Compress one 64-byte block into the running state. -/
def md5block (st : Nat × Nat × Nat × Nat) (block : List Nat) :
    Nat × Nat × Nat × Nat :=
  let M := chunkWords block
  let r := (List.range 64).foldl (md5round M) st
  ((st.1 + r.1) % m32, (st.2.1 + r.2.1) % m32,
   (st.2.2.1 + r.2.2.1) % m32, (st.2.2.2 + r.2.2.2) % m32)

/-- Split a padded message into 64-byte blocks. -/
def splitBlocks (bs : List Nat) : List (List Nat) :=
  (List.range (bs.length / 64)).map (fun i => (bs.drop (64 * i)).take 64)

/-- A hex digit character. -/
def hexDigit (n : Nat) : Char :=
  if n < 10 then Char.ofNat (48 + n) else Char.ofNat (87 + n)

/-- A byte as two lowercase hex characters. -/
def byteToHex (b : Nat) : String :=
  String.mk [hexDigit (b / 16 % 16), hexDigit (b % 16)]

/-- A 32-bit word as its four little-endian bytes. -/
def wordLEBytes (w : Nat) : List Nat :=
  [w % 256, w / 256 % 256, w / 65536 % 256, w / 16777216 % 256]

/-- Model of `hashlib.md5(...).hexdigest()` over a byte list. -/
def md5Hex (msg : List Nat) : String :=
  let st := (splitBlocks (md5pad msg)).foldl md5block
    (0x67452301, 0xefcdab89, 0x98badcfe, 0x10325476)
  String.join ((wordLEBytes st.1 ++ wordLEBytes st.2.1
      ++ wordLEBytes st.2.2.1 ++ wordLEBytes st.2.2.2).map byteToHex)

/-- Model of `str(time.time()).encode()`: the clock string's bytes (the rendering of
a float is ASCII, so code points are the bytes). -/
def strBytes (s : String) : List Nat := s.toList.map Char.toNat

/-- One STOW-RS upload request as issued by `_upload_stow_rs`: the
serialized DICOM body, the source file's basename, and the `str(time.time())`
clock reading taken when the request is built. -/
structure StowRequest where
  body : FileBytes
  filename : String
  timeStr : String
deriving DecidableEq, Repr

/-- The multipart outer boundary of a request:
`hashlib.md5(str(time.time()).encode()).hexdigest()`. -/
def stowBoundary (req : StowRequest) : String := md5Hex (strBytes req.timeStr)

/-! ## Concrete inputs reused by the claim witnesses -/

/-- A source dataset with an original InstitutionName and a second tag. -/
def wDsA : Dataset := [(institutionNameTag, "Original"), (0x00100010, "Pat")]

/-- A valid DICOM file whose upload succeeds. -/
def wFileA : SrcFile := ⟨["a.dcm"], .dicomBytes wDsA⟩

/-- A valid DICOM file whose upload fails. -/
def wFileB : SrcFile := ⟨["b.dcm"], .dicomBytes [(0x00100010, "Pat2")]⟩

/-- An upload oracle: the STOW-RS POST fails for `b.dcm`, succeeds else. -/
def wUpload : FileBytes → String → Option String :=
  fun _ nm => if nm = "b.dcm" then some "STOW-RS failed: 500" else none

/-- An environment where every filesystem move succeeds. -/
def wEnv : ProcEnv := ⟨wUpload, none, none, none⟩

/-- A two-file study folder giving one success and one failure. -/
def wFolder : List SrcFile := [wFileA, wFileB]

/-- A study folder containing only a text file. -/
def wEmptyFolder : List SrcFile := [⟨["readme.txt"], .otherBytes "hi"⟩]

/-- A valid DICOM file with the mixed-case extension `.Dcm`. -/
def dcmFileMixedCase : SrcFile := ⟨["a.Dcm"], .dicomBytes [(institutionNameTag, "v")]⟩

/-- One of two distinct STOW-RS requests built at the same clock reading. -/
def stowReqA : StowRequest := ⟨.otherBytes "a", "a.dcm", "1700000000.123"⟩

/-- The other of two distinct STOW-RS requests built at the same clock
reading. -/
def stowReqB : StowRequest := ⟨.otherBytes "b", "b.dcm", "1700000000.123"⟩

/-! ## Lemmas: dataset attribute access -/

theorem getTag_cons (p : Tag × String) (ds : Dataset) (t : Tag) :
    getTag (p :: ds) t = if p.1 = t then some p.2 else getTag ds t := by
  by_cases h : p.1 = t
  · simp [getTag, List.find?_cons_of_pos, h]
  · simp [getTag, List.find?_cons_of_neg, h]

theorem getTag_map_update_same (ds : Dataset) (t : Tag) (v : String)
    (h : ds.any (fun p => p.1 == t) = true) :
    getTag (ds.map (fun p => if p.1 == t then (t, v) else p)) t = some v := by
  induction ds with
  | nil => simp at h
  | cons p ds ih =>
      rw [List.any_cons, Bool.or_eq_true] at h
      by_cases hp : p.1 = t
      · rw [List.map_cons, show (if (p.1 == t) = true then (t, v) else p) = (t, v) by
          simp [hp]]
        simp [getTag_cons]
      · have h2 : ds.any (fun p => p.1 == t) = true := by
          rcases h with h1 | h2
          · exact absurd (by simpa using h1) hp
          · exact h2
        rw [List.map_cons, show (if (p.1 == t) = true then (t, v) else p) = p by
          simp [hp]]
        rw [getTag_cons, if_neg hp]
        exact ih h2

theorem getTag_map_update_other (ds : Dataset) (t t2 : Tag) (v : String)
    (h : t2 ≠ t) :
    getTag (ds.map (fun p => if p.1 == t then (t, v) else p)) t2 = getTag ds t2 := by
  induction ds with
  | nil => simp [getTag]
  | cons p ds ih =>
      by_cases hp : p.1 = t
      · have hno : ¬(p.1 = t2) := by
          rw [hp]
          exact fun hc => h hc.symm
        have hnt : ¬(t = t2) := fun hc => h hc.symm
        rw [List.map_cons, show (if (p.1 == t) = true then (t, v) else p) = (t, v) by
          simp [hp]]
        rw [getTag_cons, getTag_cons, if_neg hnt, if_neg hno]
        exact ih
      · rw [List.map_cons, show (if (p.1 == t) = true then (t, v) else p) = p by
          simp [hp]]
        rw [getTag_cons, getTag_cons]
        by_cases hq : p.1 = t2
        · rw [if_pos hq, if_pos hq]
        · rw [if_neg hq, if_neg hq]
          exact ih

theorem getTag_append_last (ds : Dataset) (t : Tag) (v : String)
    (h : ds.any (fun p => p.1 == t) = false) :
    getTag (ds ++ [(t, v)]) t = some v := by
  induction ds with
  | nil => simp [getTag_cons]
  | cons p ds ih =>
      rw [List.any_cons] at h
      rcases Bool.or_eq_false_iff.mp h with ⟨hpb, hdb⟩
      have hp : ¬(p.1 = t) := by simpa using hpb
      rw [List.cons_append, getTag_cons, if_neg hp]
      exact ih hdb

theorem getTag_append_other (ds : Dataset) (t t2 : Tag) (v : String)
    (h : t2 ≠ t) :
    getTag (ds ++ [(t, v)]) t2 = getTag ds t2 := by
  induction ds with
  | nil =>
      have hnt : ¬(t = t2) := fun hc => h hc.symm
      simp [getTag_cons, hnt, getTag]
  | cons p ds ih =>
      rw [List.cons_append, getTag_cons, getTag_cons]
      by_cases hq : p.1 = t2
      · rw [if_pos hq, if_pos hq]
      · rw [if_neg hq, if_neg hq]
        exact ih

/-- Setting an attribute makes it readable back. -/
theorem getTag_setTag_same (ds : Dataset) (t : Tag) (v : String) :
    getTag (setTag ds t v) t = some v := by
  unfold setTag
  by_cases h : ds.any (fun p => p.1 == t) = true
  · simpa [h] using getTag_map_update_same ds t v h
  · have h2 : ds.any (fun p => p.1 == t) = false := by
      cases hb : ds.any (fun p => p.1 == t) with
      | false => rfl
      | true => exact absurd hb h
    simpa [h2] using getTag_append_last ds t v h2

/-- Setting an attribute leaves every other attribute unchanged. -/
theorem getTag_setTag_other (ds : Dataset) (t t2 : Tag) (v : String)
    (h : t2 ≠ t) :
    getTag (setTag ds t v) t2 = getTag ds t2 := by
  unfold setTag
  by_cases hAny : ds.any (fun p => p.1 == t) = true
  · simpa [hAny] using getTag_map_update_other ds t t2 v h
  · have h2 : ds.any (fun p => p.1 == t) = false := by
      cases hb : ds.any (fun p => p.1 == t) with
      | false => rfl
      | true => exact absurd hb hAny
    simpa [h2] using getTag_append_other ds t t2 v h

/-! ## Lemmas: discovery membership -/

theorem mem_discoverStep (acc : List SrcFile) (f x : SrcFile) :
    x ∈ discoverStep acc f ↔ x ∈ acc ∨ (x = f ∧ extraProbe f = true) := by
  unfold discoverStep
  by_cases hp : extraProbe f = true
  · by_cases hm : f ∈ acc
    · simp only [hp, if_true, hm, if_true]
      constructor
      · exact fun h => Or.inl h
      · rintro (h | ⟨rfl, _⟩)
        · exact h
        · exact hm
    · simp only [hp, if_true, hm, if_false, List.mem_append, List.mem_singleton]
      tauto
  · simp [hp]

theorem mem_foldl_discoverStep (l : List SrcFile) :
    ∀ (acc : List SrcFile) (x : SrcFile),
      x ∈ l.foldl discoverStep acc ↔ x ∈ acc ∨ (x ∈ l ∧ extraProbe x = true) := by
  induction l with
  | nil => simp
  | cons f l ih =>
      intro acc x
      rw [List.foldl_cons, ih, mem_discoverStep]
      constructor
      · rintro ((h | ⟨rfl, hp⟩) | ⟨h, hp⟩)
        · exact Or.inl h
        · exact Or.inr ⟨List.mem_cons_self _ _, hp⟩
        · exact Or.inr ⟨List.mem_cons_of_mem _ h, hp⟩
      · rintro (h | ⟨h, hp⟩)
        · exact Or.inl (Or.inl h)
        · rcases List.mem_cons.mp h with rfl | h2
          · exact Or.inl (Or.inr ⟨rfl, hp⟩)
          · exact Or.inr ⟨h2, hp⟩

/-- Membership in the discovery result: a file is discovered iff it is in
the folder and passes the `.dcm` glob, the `.DCM` glob, or the
metadata-probe condition. -/
theorem mem_discoverFiles (folder : List SrcFile) (f : SrcFile) :
    f ∈ discoverFiles folder ↔
      f ∈ folder ∧ (strEnds f.name ".dcm" = true ∨ strEnds f.name ".DCM" = true ∨
        extraProbe f = true) := by
  unfold discoverFiles
  rw [mem_foldl_discoverStep]
  simp only [List.mem_append, List.mem_filter]
  constructor
  · rintro ((⟨hm, h1⟩ | ⟨hm, h2⟩) | ⟨hm, h3⟩)
    · exact ⟨hm, Or.inl h1⟩
    · exact ⟨hm, Or.inr (Or.inl h2)⟩
    · exact ⟨hm, Or.inr (Or.inr h3)⟩
  · rintro ⟨hm, (h1 | h2 | h3)⟩
    · exact Or.inl (Or.inl ⟨hm, h1⟩)
    · exact Or.inl (Or.inr ⟨hm, h2⟩)
    · exact Or.inr ⟨hm, h3⟩

/-! ## Lemmas: the per-file loop and the upload list -/

theorem processOneStep_uploads_sub (env : ProcEnv) (clinic : String)
    (acc : LoopAcc) (f : SrcFile) (fb : SrcFile × FileBytes)
    (h : fb ∈ (processOneStep env clinic acc f).uploads) :
    fb ∈ acc.uploads ∨ ∃ ds, dcmread fb.1.content = some ds ∧
      fb.2 = save_as (setTag ds institutionNameTag clinic) := by
  cases hd : dcmread f.content with
  | none =>
      simp only [processOneStep, hd] at h
      exact Or.inl h
  | some ds =>
      simp only [processOneStep, hd] at h
      cases hu : env.uploadResult (save_as (setTag ds institutionNameTag clinic)) f.name with
      | some m =>
          rw [hu] at h
          exact Or.inl h
      | none =>
          rw [hu] at h
          simp only [List.mem_append, List.mem_singleton] at h
          rcases h with h2 | h2
          · exact Or.inl h2
          · refine Or.inr ⟨ds, ?_, ?_⟩
            · rw [h2]
              exact hd
            · rw [h2]

theorem foldl_uploads_sub (env : ProcEnv) (clinic : String) (files : List SrcFile) :
    ∀ (acc : LoopAcc) (fb : SrcFile × FileBytes),
      fb ∈ (files.foldl (processOneStep env clinic) acc).uploads →
      fb ∈ acc.uploads ∨ ∃ ds, dcmread fb.1.content = some ds ∧
        fb.2 = save_as (setTag ds institutionNameTag clinic) := by
  induction files with
  | nil =>
      intro acc fb h
      exact Or.inl h
  | cons f files ih =>
      intro acc fb h
      rw [List.foldl_cons] at h
      rcases ih _ _ h with h2 | h2
      · exact processOneStep_uploads_sub env clinic acc f fb h2
      · exact Or.inr h2

theorem runExceptHandler_uploads (env : ProcEnv) (s c m : String)
    (u : List (SrcFile × FileBytes)) : (runExceptHandler env s c m u).uploads = u := by
  cases hb : env.moveFailedResultB <;> simp [runExceptHandler, hb]

theorem process_uploads_sub (env : ProcEnv) (folder : List SrcFile)
    (study clinic : String) :
    (process_study_folder env folder study clinic).uploads = [] ∨
    (process_study_folder env folder study clinic).uploads =
      (runLoop env clinic (discoverFiles folder)).uploads := by
  simp only [process_study_folder]
  by_cases hne : discoverFiles folder = []
  · rw [if_pos hne]
    cases ha : env.moveFailedResultA with
    | none => exact Or.inl rfl
    | some m => exact Or.inl (runExceptHandler_uploads env study clinic m [])
  · rw [if_neg hne]
    by_cases he : (runLoop env clinic (discoverFiles folder)).errs = 0
    · rw [if_pos he]
      cases hm : env.moveProcessedResult with
      | none => exact Or.inr rfl
      | some m => exact Or.inr (runExceptHandler_uploads env study clinic m _)
    · rw [if_neg he]
      by_cases hs : 0 < (runLoop env clinic (discoverFiles folder)).succ
      · rw [if_pos hs]
        cases hm : env.moveProcessedResult with
        | none => exact Or.inr rfl
        | some m => exact Or.inr (runExceptHandler_uploads env study clinic m _)
      · rw [if_neg hs]
        cases ha : env.moveFailedResultA with
        | none => exact Or.inr rfl
        | some m => exact Or.inr (runExceptHandler_uploads env study clinic m _)


/-! ## Claims about `process_study_folder` -/

/-- C1: for every study folder with a non-empty discovery set, letting `s`
be the successful-upload count and `f` the per-instance failure count of the
instance loop: `s>0 ∧ f=0` gives outcome success with a move to the
processed tree; `s>0 ∧ f>0` gives outcome partial with a move to the
processed tree; `s=0 ∧ f>0` gives outcome failed with quarantine to the
failed tree and an error record; an unexpected exception escaping the loop
(here: the move to processed raising) gives outcome error and quarantine
with the exception message as the recorded reason. -/
theorem process_outcome_classification
    (env : ProcEnv) (folder : List SrcFile) (study clinic : String)
    (acc : LoopAcc) (hacc : runLoop env clinic (discoverFiles folder) = acc)
    (hne : discoverFiles folder ≠ []) :
    (env.moveProcessedResult = none → 0 < acc.succ → acc.errs = 0 →
        (process_study_folder env folder study clinic).metric = some Outcome.success ∧
        (process_study_folder env folder study clinic).movedToProcessed = true) ∧
    (env.moveProcessedResult = none → 0 < acc.succ → 0 < acc.errs →
        (process_study_folder env folder study clinic).metric = some Outcome.partialImport ∧
        (process_study_folder env folder study clinic).movedToProcessed = true) ∧
    (env.moveFailedResultA = none → acc.succ = 0 → 0 < acc.errs →
        (process_study_folder env folder study clinic).metric = some Outcome.failed ∧
        (process_study_folder env folder study clinic).movedToFailed = true ∧
        (process_study_folder env folder study clinic).errorRecord =
          some ⟨study, clinic, "All " ++ toString acc.errs ++ " files failed",
            acc.errorList⟩) ∧
    (∀ msg, env.moveProcessedResult = some msg → env.moveFailedResultB = none →
        0 < acc.succ →
        (process_study_folder env folder study clinic).metric = some Outcome.error ∧
        (process_study_folder env folder study clinic).movedToFailed = true ∧
        (process_study_folder env folder study clinic).errorRecord =
          some ⟨study, clinic, msg, []⟩) := by
  subst hacc
  refine ⟨?_, ?_, ?_, ?_⟩
  · intro hmp hs he
    simp only [process_study_folder]
    rw [if_neg hne, if_pos he, hmp]
    exact ⟨rfl, rfl⟩
  · intro hmp hs he
    simp only [process_study_folder]
    rw [if_neg hne, if_neg (by omega), if_pos hs, hmp]
    exact ⟨rfl, rfl⟩
  · intro hma hs he
    simp only [process_study_folder]
    rw [if_neg hne, if_neg (by omega), if_neg (by omega), hma]
    exact ⟨rfl, rfl, rfl⟩
  · intro msg hmp hmb hs
    simp only [process_study_folder]
    by_cases he : (runLoop env clinic (discoverFiles folder)).errs = 0
    · rw [if_neg hne, if_pos he, hmp]
      simp only [runExceptHandler]
      rw [hmb]
      exact ⟨rfl, rfl, rfl⟩
    · rw [if_neg hne, if_neg he, if_pos hs, hmp]
      simp only [runExceptHandler]
      rw [hmb]
      exact ⟨rfl, rfl, rfl⟩

/-- Witness for C1, at a two-file folder with one upload success and one
upload failure and all moves succeeding: the partial clause applies. -/
theorem process_outcome_classification_witness :
    (process_study_folder wEnv wFolder "study1" "clinicA").metric =
        some Outcome.partialImport ∧
    (process_study_folder wEnv wFolder "study1" "clinicA").movedToProcessed = true := by
  have h := process_outcome_classification wEnv wFolder "study1" "clinicA"
    (runLoop wEnv "clinicA" (discoverFiles wFolder)) rfl (by decide)
  exact h.2.1 rfl (by decide) (by decide)

/-- C2: every byte stream handed to the STOW-RS upload for an instance
counted as a success decodes as a DICOM dataset whose InstitutionName
equals the tenant, and no attribute other than InstitutionName differs from
the source file's dataset. -/
theorem process_success_uploads_institution
    (env : ProcEnv) (folder : List SrcFile) (study clinic : String)
    (f : SrcFile) (b : FileBytes)
    (h : (f, b) ∈ (process_study_folder env folder study clinic).uploads) :
    ∃ ds, dcmread f.content = some ds ∧
      dcmread b = some (setTag ds institutionNameTag clinic) ∧
      getTag (setTag ds institutionNameTag clinic) institutionNameTag = some clinic ∧
      ∀ t, t ≠ institutionNameTag →
        getTag (setTag ds institutionNameTag clinic) t = getTag ds t := by
  rcases process_uploads_sub env folder study clinic with hu | hu
  · rw [hu] at h
    cases h
  · rw [hu] at h
    unfold runLoop at h
    rcases foldl_uploads_sub env clinic (discoverFiles folder) ⟨0, 0, [], []⟩ (f, b) h
      with h2 | h2
    · cases h2
    · rcases h2 with ⟨ds, hd, hb⟩
      refine ⟨ds, hd, ?_, getTag_setTag_same ds institutionNameTag clinic,
        fun t ht => getTag_setTag_other ds institutionNameTag t clinic ht⟩
      rw [show b = save_as (setTag ds institutionNameTag clinic) from hb]
      rfl

/-- Witness for C2, at the successful upload of `wFileA`. -/
theorem process_success_uploads_institution_witness :
    ∃ ds, dcmread wFileA.content = some ds ∧
      dcmread (save_as (setTag wDsA institutionNameTag "clinicA")) =
        some (setTag ds institutionNameTag "clinicA") ∧
      getTag (setTag ds institutionNameTag "clinicA") institutionNameTag =
        some "clinicA" ∧
      ∀ t, t ≠ institutionNameTag →
        getTag (setTag ds institutionNameTag "clinicA") t = getTag ds t :=
  process_success_uploads_institution wEnv wFolder "study1" "clinicA"
    wFileA (save_as (setTag wDsA institutionNameTag "clinicA")) (by decide)

/-- C5: a study folder with an empty discovery set is classified failed
with reason exactly "No DICOM files found", quarantined to the failed tree
with an error record whose errors array is empty, and no per-instance
upload is attempted. -/
theorem process_empty_discovery
    (env : ProcEnv) (folder : List SrcFile) (study clinic : String)
    (h1 : discoverFiles folder = []) (h2 : env.moveFailedResultA = none) :
    process_study_folder env folder study clinic =
      { returned := .ok false, metric := some Outcome.failed,
        movedToProcessed := false, movedToFailed := true,
        errorRecord := some ⟨study, clinic, "No DICOM files found", []⟩,
        exceptionLogged := none, removedFromInbox := true, uploads := [] } := by
  simp only [process_study_folder]
  rw [if_pos h1, h2]

/-- Witness for C5, at a folder holding only `readme.txt`. -/
theorem process_empty_discovery_witness :
    process_study_folder wEnv wEmptyFolder "study2" "clinicA" =
      { returned := .ok false, metric := some Outcome.failed,
        movedToProcessed := false, movedToFailed := true,
        errorRecord := some ⟨"study2", "clinicA", "No DICOM files found", []⟩,
        exceptionLogged := none, removedFromInbox := true, uploads := [] } :=
  process_empty_discovery wEnv wEmptyFolder "study2" "clinicA" (by decide) rfl

/-- C6: after `process_study_folder` finishes, the folder has been moved out
of its inbox path, except when the quarantine move inside the exception
handler itself raised; in that case the folder remains, the raised exception
escapes, and the `log.exception` entry recording the failure is present. -/
theorem process_removes_from_inbox
    (env : ProcEnv) (folder : List SrcFile) (study clinic : String) :
    (process_study_folder env folder study clinic).removedFromInbox = true ∨
    (∃ msg2, env.moveFailedResultB = some msg2 ∧
      (process_study_folder env folder study clinic).returned = Except.error msg2 ∧
      (process_study_folder env folder study clinic).exceptionLogged.isSome = true) := by
  have hh : ∀ (s c m : String) (u : List (SrcFile × FileBytes)),
      (runExceptHandler env s c m u).removedFromInbox = true ∨
      (∃ msg2, env.moveFailedResultB = some msg2 ∧
        (runExceptHandler env s c m u).returned = Except.error msg2 ∧
        (runExceptHandler env s c m u).exceptionLogged.isSome = true) := by
    intro s c m u
    cases hb : env.moveFailedResultB with
    | none => exact Or.inl (by simp [runExceptHandler, hb])
    | some m2 =>
        refine Or.inr ⟨m2, rfl, ?_, ?_⟩
        · simp [runExceptHandler, hb]
        · simp [runExceptHandler, hb]
  simp only [process_study_folder]
  by_cases hne : discoverFiles folder = []
  · rw [if_pos hne]
    cases ha : env.moveFailedResultA with
    | none => exact Or.inl rfl
    | some m => exact hh study clinic m []
  · rw [if_neg hne]
    by_cases he : (runLoop env clinic (discoverFiles folder)).errs = 0
    · rw [if_pos he]
      cases hm : env.moveProcessedResult with
      | none => exact Or.inl rfl
      | some m => exact hh study clinic m _
    · rw [if_neg he]
      by_cases hs : 0 < (runLoop env clinic (discoverFiles folder)).succ
      · rw [if_pos hs]
        cases hm : env.moveProcessedResult with
        | none => exact Or.inl rfl
        | some m => exact hh study clinic m _
      · rw [if_neg hs]
        cases ha : env.moveFailedResultA with
        | none => exact Or.inl rfl
        | some m => exact hh study clinic m _

/-- C10: a study classified partial (at least one success, at least one
failure, move to processed succeeding) is moved to the processed tree, is
not quarantined, and no error record is written: the collected per-file
error list is discarded. -/
theorem process_partial_no_error_record
    (env : ProcEnv) (folder : List SrcFile) (study clinic : String)
    (h1 : env.moveProcessedResult = none)
    (h2 : 0 < (runLoop env clinic (discoverFiles folder)).succ)
    (h3 : 0 < (runLoop env clinic (discoverFiles folder)).errs) :
    (process_study_folder env folder study clinic).metric = some Outcome.partialImport ∧
    (process_study_folder env folder study clinic).movedToProcessed = true ∧
    (process_study_folder env folder study clinic).movedToFailed = false ∧
    (process_study_folder env folder study clinic).errorRecord = none := by
  have hne : discoverFiles folder ≠ [] := by
    intro hc
    rw [hc] at h3
    simp [runLoop] at h3
  simp only [process_study_folder]
  rw [if_neg hne, if_neg (by omega), if_pos h2, h1]
  exact ⟨rfl, rfl, rfl, rfl⟩

/-- Witness for C10, at the two-file partial folder. -/
theorem process_partial_no_error_record_witness :
    (process_study_folder wEnv wFolder "study1" "clinicA").metric =
        some Outcome.partialImport ∧
    (process_study_folder wEnv wFolder "study1" "clinicA").movedToProcessed = true ∧
    (process_study_folder wEnv wFolder "study1" "clinicA").movedToFailed = false ∧
    (process_study_folder wEnv wFolder "study1" "clinicA").errorRecord = none :=
  process_partial_no_error_record wEnv wFolder "study1" "clinicA" rfl
    (by decide) (by decide)

/-! ## Claims about discovery (C3) -/

/-- C3 counterexample: `a.Dcm` has extension `.dcm` case-insensitively and
holds valid DICOM bytes, yet discovery excludes it (the globs match only
the exact spellings `.dcm` and `.DCM`, and `.Dcm` lowercases into the
probe loop's skip list). -/
theorem discovery_mixed_case_counterexample :
    lowerStr (pySuffix dcmFileMixedCase.name) = ".dcm" ∧
    dcmread dcmFileMixedCase.content ≠ none ∧
    dcmFileMixedCase ∉ discoverFiles [dcmFileMixedCase] := by decide

/-- C3 (amended): discovery includes a file iff its name ends with the
exact spelling `.dcm` or `.DCM`, or its lowercased extension is outside
{.dcm, .json, .txt, .log} and a metadata-only DICOM parse succeeds; in
particular a `.json` file with valid DICOM bytes is excluded, and so is a
mixed-case `.Dcm` file. -/
theorem discovery_membership (folder : List SrcFile) (f : SrcFile) :
    f ∈ discoverFiles folder ↔
      f ∈ folder ∧ (strEnds f.name ".dcm" = true ∨ strEnds f.name ".DCM" = true ∨
        (skippedSuffixes.contains (lowerStr (pySuffix f.name)) = false ∧
          (dcmread f.content).isSome = true)) := by
  rw [mem_discoverFiles]
  have hpr : extraProbe f = true ↔
      (skippedSuffixes.contains (lowerStr (pySuffix f.name)) = false ∧
        (dcmread f.content).isSome = true) := by
    unfold extraProbe
    rw [Bool.and_eq_true, Bool.not_eq_true']
  rw [hpr]

/-! ## Claims about the token cache (C4) -/

/-- In anonymous mode (empty client secret) no token is ever cached. -/
theorem tokenReachable_no_secret_no_token (st : TokenState)
    (h : TokenReachable "" st) : st.token = none := by
  induction h with
  | init => rfl
  | step st now net hr ih =>
      simp [get_token, tokenTruthy, ih, refresh_token]

/-- C4 counterexample: with a cached token expiring at 100 and the clock at
40 — exactly 60 seconds before expiry — the claim says the cached token is
returned, but the code's strict comparison triggers a refresh: with the
refresh failing, none is returned and network I/O happens. -/
theorem get_token_boundary_counterexample :
    (60 : Int) ≤ (100 : Int) - 40 ∧
    (get_token "secret" ⟨some "tok", 100⟩ 40 none).returned = none ∧
    (get_token "secret" ⟨some "tok", 100⟩ 40 none).networkUsed = true := by decide

/-- C4 (amended): the cached token is returned exactly when one is cached
(non-empty) and the clock is strictly more than 60 seconds before the
stored expiry; otherwise a refresh happens: on 2xx the pair
`(access_token, now + expires_in)` is stored and the token returned, on any
error or non-2xx none is returned with the pair unchanged; with an empty
client secret (from any reachable state) none is returned without network
I/O. -/
theorem get_token_cache_behavior (secret : String) (st : TokenState) (now : Int)
    (net : Option KeycloakResponse) :
    (∀ t, st.token = some t → t ≠ "" → now < st.expires - 60 →
        get_token secret st now net = ⟨some t, st, false⟩) ∧
    (¬(tokenTruthy st.token = true ∧ now < st.expires - 60) → secret ≠ "" →
        (net = none → get_token secret st now net = ⟨none, st, true⟩) ∧
        (∀ r, net = some r → get_token secret st now net =
            ⟨some r.access_token,
             ⟨some r.access_token, now + r.expires_in.getD 300⟩, true⟩)) ∧
    (secret = "" → TokenReachable secret st →
        get_token secret st now net = ⟨none, st, false⟩) := by
  refine ⟨?_, ?_, ?_⟩
  · intro t ht htne hlt
    have hc : tokenTruthy st.token = true := by
      rw [ht]
      simp [tokenTruthy, htne]
    unfold get_token
    rw [if_pos ⟨hc, hlt⟩, ht]
  · intro hng hsec
    constructor
    · intro hnet
      unfold get_token
      rw [if_neg hng]
      unfold refresh_token
      rw [if_neg hsec, hnet]
    · intro r hr
      unfold get_token
      rw [if_neg hng]
      unfold refresh_token
      rw [if_neg hsec, hr]
  · intro hsec hr
    subst hsec
    have ht : st.token = none := tokenReachable_no_secret_no_token st hr
    unfold get_token
    rw [if_neg (by simp [tokenTruthy, ht])]
    unfold refresh_token
    rw [if_pos rfl]

/-- Witness for C4 (amended), at a cached token with 100 seconds left. -/
theorem get_token_cache_behavior_witness :
    get_token "s" ⟨some "tok", 200⟩ 100 none =
      ⟨some "tok", ⟨some "tok", 200⟩, false⟩ :=
  (get_token_cache_behavior "s" ⟨some "tok", 200⟩ 100 none).1 "tok" rfl
    (by decide) (by decide)

/-! ## Claims about the STOW-RS boundary (C9) -/

/-- C9 counterexample: two distinct upload requests built at the same clock
reading have the same multipart boundary — the boundary is not unique per
request. -/
theorem stow_boundary_counterexample :
    stowReqA ≠ stowReqB ∧ stowBoundary stowReqA = stowBoundary stowReqB :=
  ⟨by decide, rfl⟩

/-- C9 (amended): the outer boundary is the MD5 hex digest of the
`str(time.time())` clock string and depends on nothing else in the request,
so any two requests built at the same clock reading share one boundary. -/
theorem stow_boundary_time_determined (r1 r2 : StowRequest)
    (h : r1.timeStr = r2.timeStr) :
    stowBoundary r1 = md5Hex (strBytes r1.timeStr) ∧
    stowBoundary r1 = stowBoundary r2 := by
  refine ⟨rfl, ?_⟩
  unfold stowBoundary
  rw [h]

/-- Witness for C9 (amended), at the two concrete requests. -/
theorem stow_boundary_time_determined_witness :
    stowBoundary stowReqA = md5Hex (strBytes stowReqA.timeStr) ∧
    stowBoundary stowReqA = stowBoundary stowReqB :=
  stow_boundary_time_determined stowReqA stowReqB rfl

/-! ## Claims about the pending map drain (C7) -/

theorem submit_fun_eq_some (inbox : PathSegs) (fsExists : PathSegs → Bool)
    (key k : PathSegs) (c : String) :
    (if fsExists key then
        match relativeParts inbox key with
        | some (c2 :: _) => some (key, c2)
        | _ => none
      else none) = some (k, c) ↔
    key = k ∧ fsExists k = true ∧ ∃ rest, relativeParts inbox k = some (c :: rest) := by
  by_cases hfs : fsExists key
  · rw [if_pos hfs]
    cases hrel : relativeParts inbox key with
    | none =>
        constructor
        · intro hc
          cases hc
        · rintro ⟨rfl, _, rest, hrel2⟩
          rw [hrel] at hrel2
          cases hrel2
    | some parts =>
        cases parts with
        | nil =>
            constructor
            · intro hc
              cases hc
            · rintro ⟨rfl, _, rest, hrel2⟩
              rw [hrel] at hrel2
              cases hrel2
        | cons c2 rest2 =>
            constructor
            · intro hc
              have hk : key = k ∧ c2 = c := by
                constructor <;> · injection hc with h1; injection h1
              refine ⟨hk.1, hk.1 ▸ hfs, rest2, ?_⟩
              rw [← hk.1, hrel, hk.2]
            · rintro ⟨rfl, _, rest, hrel2⟩
              rw [hrel] at hrel2
              injection hrel2 with h1
              injection h1 with h2
              rw [h2]
  · rw [if_neg hfs]
    constructor
    · intro hc
      cases hc
    · rintro ⟨rfl, hfs2, _⟩
      exact absurd hfs2 hfs

/-- C7: a drain at time `now` keeps pending exactly the entries with
`now - ts < cooldown`, and submits exactly the removed (expired) entries
whose folder still exists at submission time, each paired with the first
segment of its inbox-relative path as tenant. -/
theorem check_pending_folders_drain (inbox : PathSegs) (cooldown : Int)
    (fsExists : PathSegs → Bool) (now : Int) (st : List (PathSegs × Int)) :
    (∀ k ts, (k, ts) ∈ (check_pending_folders inbox cooldown fsExists now st).1 ↔
        ((k, ts) ∈ st ∧ now - ts < cooldown)) ∧
    (∀ k c, (k, c) ∈ (check_pending_folders inbox cooldown fsExists now st).2 ↔
        ((∃ ts, (k, ts) ∈ st ∧ cooldown ≤ now - ts) ∧ fsExists k = true ∧
          ∃ rest, relativeParts inbox k = some (c :: rest))) := by
  constructor
  · intro k ts
    simp only [check_pending_folders, List.mem_filter, Bool.not_eq_true',
      decide_eq_false_iff_not, Int.not_le]
  · intro k c
    simp only [check_pending_folders, List.mem_filterMap, List.mem_map,
      List.mem_filter, decide_eq_true_eq]
    constructor
    · rintro ⟨key, ⟨⟨e, ⟨hmem, hcd⟩, hfst⟩, hg⟩⟩
      rcases (submit_fun_eq_some inbox fsExists key k c).mp hg with ⟨rfl, hfs, rest, hrel⟩
      exact ⟨⟨e.2, by rwa [show (key, e.2) = e from by rw [← hfst]], hcd⟩,
        hfs, rest, hrel⟩
    · rintro ⟨⟨ts, hmem, hcd⟩, hfs, rest, hrel⟩
      exact ⟨k, ⟨⟨(k, ts), ⟨hmem, hcd⟩, rfl⟩,
        (submit_fun_eq_some inbox fsExists k k c).mpr ⟨rfl, hfs, rest, hrel⟩⟩⟩

/-! ## Lemmas: the pending map as a Python dict -/

theorem dictGet_cons (e : PathSegs × Int) (m : List (PathSegs × Int)) (k : PathSegs) :
    dictGet (e :: m) k = if e.1 = k then some e.2 else dictGet m k := by
  by_cases h : e.1 = k
  · simp [dictGet, List.find?_cons_of_pos, h]
  · simp [dictGet, List.find?_cons_of_neg, h]

theorem dictGet_map_update_same (m : List (PathSegs × Int)) (k : PathSegs) (v : Int)
    (h : m.any (fun e => decide (e.1 = k)) = true) :
    dictGet (m.map (fun e => if e.1 = k then (k, v) else e)) k = some v := by
  induction m with
  | nil => simp at h
  | cons e m ih =>
      rw [List.any_cons, Bool.or_eq_true] at h
      by_cases hp : e.1 = k
      · rw [List.map_cons, if_pos hp, dictGet_cons]
        simp
      · have h2 : m.any (fun e => decide (e.1 = k)) = true := by
          rcases h with h1 | h2
          · exact absurd (of_decide_eq_true h1) hp
          · exact h2
        rw [List.map_cons, if_neg hp, dictGet_cons, if_neg hp]
        exact ih h2

theorem dictGet_map_update_other (m : List (PathSegs × Int)) (k k2 : PathSegs) (v : Int)
    (h : k2 ≠ k) :
    dictGet (m.map (fun e => if e.1 = k then (k, v) else e)) k2 = dictGet m k2 := by
  induction m with
  | nil => simp [dictGet]
  | cons e m ih =>
      by_cases hp : e.1 = k
      · have hno : ¬(e.1 = k2) := by
          rw [hp]
          exact fun hc => h hc.symm
        have hnt : ¬(k = k2) := fun hc => h hc.symm
        rw [List.map_cons, if_pos hp, dictGet_cons, dictGet_cons, if_neg hnt, if_neg hno]
        exact ih
      · rw [List.map_cons, if_neg hp, dictGet_cons, dictGet_cons]
        by_cases hq : e.1 = k2
        · rw [if_pos hq, if_pos hq]
        · rw [if_neg hq, if_neg hq]
          exact ih

theorem dictGet_append_last (m : List (PathSegs × Int)) (k : PathSegs) (v : Int)
    (h : m.any (fun e => decide (e.1 = k)) = false) :
    dictGet (m ++ [(k, v)]) k = some v := by
  induction m with
  | nil => simp [dictGet_cons]
  | cons e m ih =>
      rw [List.any_cons] at h
      rcases Bool.or_eq_false_iff.mp h with ⟨hpb, hdb⟩
      have hp : ¬(e.1 = k) := by simpa using hpb
      rw [List.cons_append, dictGet_cons, if_neg hp]
      exact ih hdb

theorem dictGet_append_other (m : List (PathSegs × Int)) (k k2 : PathSegs) (v : Int)
    (h : k2 ≠ k) :
    dictGet (m ++ [(k, v)]) k2 = dictGet m k2 := by
  induction m with
  | nil =>
      have hnt : ¬(k = k2) := fun hc => h hc.symm
      simp [dictGet_cons, hnt, dictGet]
  | cons e m ih =>
      rw [List.cons_append, dictGet_cons, dictGet_cons]
      by_cases hq : e.1 = k2
      · rw [if_pos hq, if_pos hq]
      · rw [if_neg hq, if_neg hq]
        exact ih

/-- Assigning `d[k] = v` makes `d.get(k)` return `v`. -/
theorem dictGet_dictSet_same (m : List (PathSegs × Int)) (k : PathSegs) (v : Int) :
    dictGet (dictSet m k v) k = some v := by
  unfold dictSet
  by_cases h : m.any (fun e => decide (e.1 = k)) = true
  · simpa [h] using dictGet_map_update_same m k v h
  · have h2 : m.any (fun e => decide (e.1 = k)) = false := by
      cases hb : m.any (fun e => decide (e.1 = k)) with
      | false => rfl
      | true => exact absurd hb h
    simpa [h2] using dictGet_append_last m k v h2

/-- Assigning `d[k] = v` leaves every other key unchanged. -/
theorem dictGet_dictSet_other (m : List (PathSegs × Int)) (k : PathSegs) (v : Int)
    (k2 : PathSegs) (h : k2 ≠ k) :
    dictGet (dictSet m k v) k2 = dictGet m k2 := by
  unfold dictSet
  by_cases hAny : m.any (fun e => decide (e.1 = k)) = true
  · simpa [hAny] using dictGet_map_update_other m k k2 v h
  · have h2 : m.any (fun e => decide (e.1 = k)) = false := by
      cases hb : m.any (fun e => decide (e.1 = k)) with
      | false => rfl
      | true => exact absurd hb hAny
    simpa [h2] using dictGet_append_other m k k2 v h

theorem countP_keys_zero (m : List (PathSegs × Int)) (k : PathSegs)
    (h : m.any (fun e => decide (e.1 = k)) = false) :
    m.countP (fun e => decide (e.1 = k)) = 0 := by
  induction m with
  | nil => simp
  | cons e m ih =>
      rw [List.any_cons] at h
      rcases Bool.or_eq_false_iff.mp h with ⟨hpb, hdb⟩
      rw [List.countP_cons_of_neg _ _ (by simpa using hpb)]
      exact ih hdb

theorem countP_keys_one (m : List (PathSegs × Int)) (k : PathSegs)
    (hn : (m.map Prod.fst).Nodup) (h : m.any (fun e => decide (e.1 = k)) = true) :
    m.countP (fun e => decide (e.1 = k)) = 1 := by
  induction m with
  | nil => simp at h
  | cons e m ih =>
      rw [List.map_cons, List.nodup_cons] at hn
      rw [List.any_cons, Bool.or_eq_true] at h
      by_cases hp : e.1 = k
      · rw [List.countP_cons_of_pos _ _ (by simpa using hp)]
        have h0 : m.any (fun e => decide (e.1 = k)) = false := by
          cases ha : m.any (fun e => decide (e.1 = k)) with
          | false => rfl
          | true =>
              exfalso
              rcases List.any_eq_true.mp ha with ⟨e2, he2, hpe⟩
              exact hn.1 (List.mem_map.mpr
                ⟨e2, he2, (of_decide_eq_true hpe).trans hp.symm⟩)
        rw [countP_keys_zero m k h0]
      · rw [List.countP_cons_of_neg _ _ (by simpa using hp)]
        have h2 : m.any (fun e => decide (e.1 = k)) = true := by
          rcases h with h1 | h2
          · exact absurd (of_decide_eq_true h1) hp
          · exact h2
        exact ih hn.2 h2

/-- After `d[k] = v` the dict holds exactly one entry for `k`. -/
theorem countP_dictSet (m : List (PathSegs × Int)) (k : PathSegs) (v : Int)
    (hn : (m.map Prod.fst).Nodup) :
    (dictSet m k v).countP (fun e => decide (e.1 = k)) = 1 := by
  unfold dictSet
  by_cases hAny : m.any (fun e => decide (e.1 = k)) = true
  · rw [if_pos hAny, List.countP_map]
    have hfun : ((fun e => decide (e.1 = k)) ∘
        (fun e : PathSegs × Int => if e.1 = k then (k, v) else e)) =
        (fun e : PathSegs × Int => decide (e.1 = k)) := by
      funext e
      by_cases hp : e.1 = k <;> simp [hp]
    rw [hfun]
    exact countP_keys_one m k hn hAny
  · rw [if_neg hAny, List.countP_append]
    have h0 : m.any (fun e => decide (e.1 = k)) = false := by
      cases hb : m.any (fun e => decide (e.1 = k)) with
      | false => rfl
      | true => exact absurd hb hAny
    rw [countP_keys_zero m k h0]
    simp

/-- Assigning `d[k] = v` preserves key uniqueness. -/
theorem nodupKeys_dictSet (m : List (PathSegs × Int)) (k : PathSegs) (v : Int)
    (hn : (m.map Prod.fst).Nodup) :
    ((dictSet m k v).map Prod.fst).Nodup := by
  unfold dictSet
  by_cases hAny : m.any (fun e => decide (e.1 = k)) = true
  · rw [if_pos hAny, List.map_map]
    have hfun : (Prod.fst ∘ (fun e : PathSegs × Int => if e.1 = k then (k, v) else e)) =
        (Prod.fst : PathSegs × Int → PathSegs) := by
      funext e
      by_cases hp : e.1 = k <;> simp [hp]
    rw [hfun]
    exact hn
  · rw [if_neg hAny, List.map_append, List.nodup_append]
    refine ⟨hn, List.nodup_singleton k, ?_⟩
    intro x hx hx2
    rcases List.mem_map.mp hx with ⟨e, he, hfst⟩
    rw [List.mem_map] at hx2
    rcases hx2 with ⟨e2, he2, hfst2⟩
    have hk : x = k := by
      rcases List.mem_singleton.mp he2 with rfl
      exact hfst2.symm
    have : m.any (fun e => decide (e.1 = k)) = true :=
      List.any_eq_true.mpr ⟨e, he, decide_eq_true (hfst.trans hk)⟩
    exact absurd this hAny

theorem handle_new_folder_study (inbox path : PathSegs) (a b : String)
    (rest : PathSegs) (st : List (PathSegs × Int)) (now : Int)
    (hrel : relativeParts inbox path = some (a :: b :: rest)) :
    handle_new_folder inbox st path now = dictSet st (inbox ++ [a, b]) now := by
  unfold handle_new_folder
  rw [hrel]

theorem noteMany_study_aux (inbox path : PathSegs) (a b : String) (rest : PathSegs)
    (hrel : relativeParts inbox path = some (a :: b :: rest)) (ts : List Int) :
    ∀ (t : Int) (st : List (PathSegs × Int)), (st.map Prod.fst).Nodup →
      ((noteMany inbox st path (t :: ts)).countP
          (fun e => decide (e.1 = inbox ++ [a, b])) = 1 ∧
       dictGet (noteMany inbox st path (t :: ts)) (inbox ++ [a, b]) =
          (t :: ts).getLast? ∧
       ∀ k2, k2 ≠ inbox ++ [a, b] →
          dictGet (noteMany inbox st path (t :: ts)) k2 = dictGet st k2) := by
  induction ts with
  | nil =>
      intro t st hn
      have h1 : noteMany inbox st path [t] = dictSet st (inbox ++ [a, b]) t := by
        unfold noteMany
        rw [List.foldl_cons, List.foldl_nil,
          handle_new_folder_study inbox path a b rest st t hrel]
      rw [h1]
      refine ⟨countP_dictSet st _ t hn, ?_, fun k2 hk2 =>
        dictGet_dictSet_other st _ t k2 hk2⟩
      rw [dictGet_dictSet_same]
      simp
  | cons t2 ts ih =>
      intro t st hn
      have h1 : noteMany inbox st path (t :: t2 :: ts) =
          noteMany inbox (dictSet st (inbox ++ [a, b]) t) path (t2 :: ts) := by
        unfold noteMany
        rw [List.foldl_cons,
          handle_new_folder_study inbox path a b rest st t hrel]
      rw [h1]
      obtain ⟨hc, hg, ho⟩ := ih t2 (dictSet st (inbox ++ [a, b]) t)
        (nodupKeys_dictSet st _ t hn)
      refine ⟨hc, ?_, ?_⟩
      · rw [hg, List.getLast?_cons_cons]
      · intro k2 hk2
        rw [ho k2 hk2, dictGet_dictSet_other st _ t k2 hk2]

/-- C8: calling `note(path)` any positive number of times for a path with
at least two inbox-relative segments leaves exactly one pending entry,
keyed `{inbox}/{seg0}/{seg1}`, holding the timestamp of the most recent
call, and touches no other key; a path outside the inbox or with fewer
than two segments leaves the map unchanged. -/
theorem handle_new_folder_repeat (inbox path : PathSegs)
    (st : List (PathSegs × Int)) (times : List Int)
    (hn : (st.map Prod.fst).Nodup) (hne : times ≠ []) :
    (∀ a b rest, relativeParts inbox path = some (a :: b :: rest) →
        ((noteMany inbox st path times).countP
            (fun e => decide (e.1 = inbox ++ [a, b])) = 1 ∧
         dictGet (noteMany inbox st path times) (inbox ++ [a, b]) =
            times.getLast? ∧
         ∀ k2, k2 ≠ inbox ++ [a, b] →
            dictGet (noteMany inbox st path times) k2 = dictGet st k2)) ∧
    ((∀ parts, relativeParts inbox path = some parts → parts.length < 2) →
        noteMany inbox st path times = st) := by
  constructor
  · intro a b rest hrel
    cases times with
    | nil => exact absurd rfl hne
    | cons t ts => exact noteMany_study_aux inbox path a b rest hrel ts t st hn
  · intro hshort
    have hstep : ∀ (t : Int) (s : List (PathSegs × Int)),
        handle_new_folder inbox s path t = s := by
      intro t s
      unfold handle_new_folder
      cases hrel : relativeParts inbox path with
      | none => rfl
      | some parts =>
          have hlen := hshort parts hrel
          cases parts with
          | nil => rfl
          | cons a tail =>
              cases tail with
              | nil => rfl
              | cons b r =>
                  exfalso
                  simp only [List.length_cons] at hlen
                  omega
    clear hne
    induction times with
    | nil => rfl
    | cons t ts ih =>
        unfold noteMany
        rw [List.foldl_cons, hstep t st]
        exact ih

/-- Witness for C8, noting the same 4-segment path twice. -/
theorem handle_new_folder_repeat_witness :
    (noteMany ["inbox"] [] ["inbox", "c1", "s1", "sub"] [1, 5]).countP
        (fun e => decide (e.1 = ["inbox"] ++ ["c1", "s1"])) = 1 ∧
    dictGet (noteMany ["inbox"] [] ["inbox", "c1", "s1", "sub"] [1, 5])
        (["inbox"] ++ ["c1", "s1"]) = [1, 5].getLast? := by
  have h := (handle_new_folder_repeat ["inbox"] ["inbox", "c1", "s1", "sub"]
      [] [1, 5] (by simp) (by decide)).1 "c1" "s1" ["sub"] (by decide)
  exact ⟨h.1, h.2.1⟩

end DicomImporter
